import Mathlib

/-!
Shallow embedding of the sosistab FEC codec (`src/lib/sosistab/src/fec.rs`)
and the multiplex actor (`src/lib/sosistab/src/mux/multiplex_actor.rs`).

Bytes are modelled as `List Nat` (each entry a byte value); machine
integers are `Nat` with explicit wrapping where the source casts.
Rust panics are modelled as `Except.error ()`; `Option` returns map to
`Option`.  The external `reed_solomon_erasure` library is not part of
this repository: its encode/reconstruct calls are parameters of the
embedded functions, and theorems that depend on the library's contract
(systematic code, in-place mutation preserving shard shapes) take that
contract as an explicit hypothesis.
-/

/-- Little-endian bytes of `(n as u16)`: the source writes
`(pkt.len() as u16).to_le_bytes()`; the `as u16` cast wraps mod 65536. -/
def le16 (n : Nat) : List Nat :=
  [n % 256, n % 65536 / 256]

/-- Embeds `pre_encode` (fec.rs lines 215-225): header `le16(pkt.len())`,
then the packet, then zero padding up to `len` total bytes.  The two
`assert!` calls (`pkt.len() <= 65535` and `pkt.len() + 2 <= len`) panic
outside that domain; theorems about `pre_encode` carry both bounds as
hypotheses, matching the asserted domain. -/
def pre_encode (pkt : List Nat) (len : Nat) : List Nat :=
  le16 pkt.length ++ pkt ++ List.replicate (len - pkt.length - 2) 0

/-- Embeds `post_decode` (fec.rs lines 227-233).  `raw.len() < 2` returns
`None`.  Otherwise `body_len = u16::from_le_bytes([raw[0], raw[1]])` and
the source evaluates `raw.slice(2..2 + body_len)`, which PANICS whenever
`2 + body_len > raw.len()` (`Bytes::slice` bounds check); the panic is
modelled as `Except.error ()`. -/
def postDecode (raw : List Nat) : Except Unit (Option (List Nat)) :=
  match raw with
  | a :: b :: rest =>
      let body_len := a + 256 * b
      if body_len ≤ rest.length then Except.ok (some (rest.take body_len))
      else Except.error ()
  | _ => Except.ok none

/-- Embeds `FrameEncoder::repair_len` (fec.rs lines 70-90).  The memoised
inner search runs an `f64` binomial-CDF loop; its result (the value stored
in `rate_table`, i.e. `additional_len.saturating_sub(1)`) is floating-point
arithmetic and is therefore kept abstract as the parameter `rawSearch`.
What the source applies to that value on every call is
`.min(255 - run_len).min(run_len)`, embedded exactly here.  The `255 -
run_len` is a `usize` subtraction: for `run_len > 255` it underflows (a
panic under debug overflow checking, a wrap in release builds), so this
truncating `Nat` model is faithful only for `run_len ≤ 255` and every
theorem about it carries that bound; `FrameEncoder.encode_checked` below
makes the out-of-domain panic explicit. -/
def repair_len (rawSearch : Nat) (run_len : Nat) : Nat :=
  min (min rawSearch (255 - run_len)) run_len

/-- Embeds `FrameEncoder::encode` (fec.rs lines 30-67).  `rsParity`
stands for the external `galois_8::ReedSolomon::encode` call on the
in-place shard vector; `rawSearch` is the abstract memoised CDF-search
result consumed by `repair_len`.  The `.max().unwrap()` on an empty
`pkts` panics, so theorems carry `pkts ≠ []`. -/
def FrameEncoder.encode (rsParity : Nat → Nat → List (List Nat) → List (List Nat))
    (rawSearch : Nat) (pkts : List (List Nat)) : List (List Nat) :=
  let max_length := (pkts.map List.length).foldl max 0
  let padded := pkts.map (fun p => pre_encode p (max_length + 2))
  let data_shards := pkts.length
  let parity_shards := repair_len rawSearch pkts.length
  let parity_space := List.replicate parity_shards (List.replicate (max_length + 2) 0)
  let shards := padded ++ parity_space
  if 0 < parity_shards then rsParity data_shards parity_shards shards else shards

/-- `FrameEncoder::encode` with the panics of its parity computation made
explicit.  For more than 255 packets the `255 - run_len` usize
subtraction in `repair_len` (fec.rs line 88) underflows: under debug
overflow checking it panics outright, and in release builds it wraps to a
huge cap, so any positive search value gives `parity_shards ≥ 1` and
`galois_8::ReedSolomon::new(data_shards, parity_shards)` with more than
256 total shards fails, hitting the `.expect(..)` panic at fec.rs lines
56-58.  Both build modes therefore panic whenever `pkts.len() > 255` and
the search value is positive, which is the condition modelled as
`Except.error` here (with a zero search value release builds return the
`k` data shards, matching the `Except.ok` branch; debug builds panic
there too).  Within `pkts.len() ≤ 255` this is `FrameEncoder.encode`. -/
def FrameEncoder.encode_checked
    (rsParity : Nat → Nat → List (List Nat) → List (List Nat))
    (rawSearch : Nat) (pkts : List (List Nat)) : Except Unit (List (List Nat)) :=
  if 255 < pkts.length ∧ 0 < rawSearch then Except.error ()
  else Except.ok (FrameEncoder.encode rsParity rawSearch pkts)

/-- State of `FrameDecoder` (fec.rs lines 95-103).  `rs_decoder_some`
records whether the `rs_decoder` field is `Some` (the codec instance
itself is external library state). -/
structure FrameDecoder where
  data_shards : Nat
  parity_shards : Nat
  space : List (List Nat)
  present : List Bool
  present_count : Nat
  rs_decoder_some : Bool
  done : Bool
  deriving DecidableEq

/-- Embeds `FrameDecoder::new` (fec.rs lines 112-129). -/
def FrameDecoder.new (data_shards parity_shards : Nat) : FrameDecoder :=
  { data_shards := data_shards
    parity_shards := parity_shards
    present_count := 0
    space := []
    present := List.replicate (data_shards + parity_shards) false
    rs_decoder_some := decide (0 < parity_shards ∧ data_shards + parity_shards ≤ 128)
    done := false }

/-- Embeds `FrameDecoder::good_pkts` (fec.rs lines 131-141). -/
def FrameDecoder.good_pkts (d : FrameDecoder) : Nat :=
  if d.done then d.data_shards
  else
    min ((d.present.enum.map
      (fun iv => if iv.2 && decide (iv.1 < d.data_shards) then 1 else 0)).sum)
      d.data_shards

/-- Embeds `FrameDecoder::lost_pkts` (fec.rs lines 143-145); `usize`
subtraction panics on underflow, `Nat` subtraction truncates — the two
agree exactly when `good_pkts ≤ data_shards`, which is proved below. -/
def FrameDecoder.lost_pkts (d : FrameDecoder) : Nat :=
  d.data_shards - d.good_pkts

/-- Embeds the `drain(..).zip(present).take(k).filter_map(..)` collection
at fec.rs lines 198-210: for each data slot that was not present, apply
`post_decode` and keep `Some` results; a `post_decode` panic propagates. -/
def collectAbsent : List (List Nat) → List Bool → Except Unit (List (List Nat))
  | [], _ => Except.ok []
  | _, [] => Except.ok []
  | s :: ss, p :: ps =>
      if p then collectAbsent ss ps
      else
        match postDecode s with
        | Except.error e => Except.error e
        | Except.ok none => collectAbsent ss ps
        | Except.ok (some x) =>
            match collectAbsent ss ps with
            | Except.error e => Except.error e
            | Except.ok rest => Except.ok (x :: rest)

/-- Embeds `FrameDecoder::decode` (fec.rs lines 148-212).  `rsRec` stands
for the external `ReedSolomon::reconstruct` on the shard/present vector:
`none` models an `Err` (or a partial mutation we do not observe further),
`some newSpace` the successfully reconstructed shard set.  After a
successful reconstruction the source `drain`s `space`, leaving it empty.
A panic inside `post_decode` is propagated as `Except.error ()`. -/
def FrameDecoder.decode (rsRec : List (List Nat) → List Bool → Option (List (List Nat)))
    (d : FrameDecoder) (pkt : List Nat) (pkt_idx : Nat) :
    Except Unit (FrameDecoder × Option (List (List Nat))) :=
  if d.parity_shards = 0 then
    match postDecode pkt with
    | Except.error e => Except.error e
    | Except.ok none => Except.ok ({ d with done := true }, none)
    | Except.ok (some p) => Except.ok ({ d with done := true }, some [p])
  else
    let space0 :=
      if d.space.isEmpty then
        List.replicate (d.data_shards + d.parity_shards) (List.replicate pkt.length 0)
      else d.space
    let d1 := { d with space := space0 }
    if space0.length ≤ pkt_idx then Except.ok (d1, none)
    else if d.done ∨ space0.length < pkt_idx ∨ d.present.length < pkt_idx
        ∨ (space0.getD pkt_idx []).length ≠ pkt.length then Except.ok (d1, none)
    else
      let space2 := space0.set pkt_idx pkt
      let present2 := d.present.set pkt_idx true
      let pc := if d.present.getD pkt_idx false then d.present_count else d.present_count + 1
      let d2 := { d with space := space2, present := present2, present_count := pc }
      if pkt_idx < d.data_shards then
        match postDecode pkt with
        | Except.error e => Except.error e
        | Except.ok none => Except.ok (d2, none)
        | Except.ok (some p) => Except.ok (d2, some [p])
      else if pc < d.data_shards then Except.ok (d2, none)
      else if d.rs_decoder_some = false then Except.ok (d2, none)
      else
        match rsRec space2 present2 with
        | none => Except.ok (d2, none)
        | some space3 =>
            match collectAbsent (space3.take d.data_shards) (present2.take d.data_shards) with
            | Except.error e => Except.error e
            | Except.ok res =>
                Except.ok ({ d2 with done := true, space := [] }, some res)

/-- Runs a sequence of `decode` calls, collecting each call's return
value; a panic anywhere aborts the whole run. -/
def decodeSeq (rsRec : List (List Nat) → List Bool → Option (List (List Nat))) :
    FrameDecoder → List (List Nat × Nat) →
    Except Unit (FrameDecoder × List (Option (List (List Nat))))
  | d, [] => Except.ok (d, [])
  | d, (pkt, idx) :: rest =>
      match d.decode rsRec pkt idx with
      | Except.error e => Except.error e
      | Except.ok (d1, out) =>
          match decodeSeq rsRec d1 rest with
          | Except.error e => Except.error e
          | Except.ok (dF, outs) => Except.ok (dF, out :: outs)

/-- A reconstruction stub that always fails; used to instantiate `rsRec`
on concrete runs that never reach the reconstruction branch. -/
def rsNone : List (List Nat) → List Bool → Option (List (List Nat)) :=
  fun _ _ => none

/-- A reconstruction stub that reports success with a concrete shard set;
used to drive a concrete run through the reconstruction branch. -/
def rsW : List (List Nat) → List Bool → Option (List (List Nat)) :=
  fun _ _ => some [[0, 0], [9, 9]]

/-- The concrete decoder state reached by `(FrameDecoder.new 1 1).decode rsW
[9, 9] 1`: reconstruction succeeded, `done` is set and `space` was drained. -/
def dRecon : FrameDecoder :=
  { data_shards := 1
    parity_shards := 1
    space := []
    present := [false, true]
    present_count := 1
    rs_decoder_some := true
    done := true }

/-- The state after one further `decode` call on `dRecon` (the empty
`space` is lazily re-allocated; nothing else changes). -/
def dFin : FrameDecoder :=
  { dRecon with space := [[0, 0], [0, 0]] }

/-- A concrete finished decoder state, used to evaluate the accounting
functions at a `done` state. -/
def decoderDoneEx : FrameDecoder :=
  { data_shards := 3
    parity_shards := 1
    space := []
    present := List.replicate 4 false
    present_count := 0
    rs_decoder_some := true
    done := true }

/-- Modelled from the spec: `RelKind` is declared in `mux/structs.rs`,
which is not under `src/`; spec section 3 lists the variants
`Syn, SynAck, Data, Fin, FinAck, Rst`. -/
inductive RelKind where
  | Syn
  | SynAck
  | Data
  | Fin
  | FinAck
  | Rst
  deriving DecidableEq

/-- Modelled from the spec: the `Message::Rel` variant of `mux/structs.rs`
(not under `src/`): `Rel { kind, stream_id: u16, seqno: u64, payload }`. -/
structure RelFrame where
  kind : RelKind
  stream_id : Nat
  seqno : Nat
  payload : List Nat
  deriving DecidableEq

/-- Modelled from the spec: the initial `RelConnState` values constructed
by the actor (`SynReceived { stream_id }` for remote opens; `SynSent` for
local opens); the full state machine lives in `mux/relconn.rs`, outside
`src/`. -/
inductive RelConnState where
  | SynReceived (stream_id : Nat)
  | SynSent (stream_id : Nat) (tries : Nat)
  deriving DecidableEq

/-- What the actor stores in the connection table for a stream: the
initial state it was constructed with and the additional-info string
(modelled as the raw payload bytes; `String::from_utf8_lossy` maps the
empty byte string, and only it, to the empty string, so the emptiness
test below is faithful). -/
structure StreamEntry where
  state : RelConnState
  additional_info : Option (List Nat)
  deriving DecidableEq

/-- Embeds `ConnTable::get_stream` (multiplex_actor.rs lines 178-181);
the `DashMap` is modelled as an association list keyed by stream id. -/
def getStream (t : List (Nat × StreamEntry)) (sid : Nat) : Option StreamEntry :=
  match t.lookup sid with
  | some e => some e
  | none => none

/-- Embeds `ConnTable::set_stream` (multiplex_actor.rs lines 183-185):
`DashMap::insert` overwrites any entry with the same key. -/
def setStream (t : List (Nat × StreamEntry)) (sid : Nat) (e : StreamEntry) :
    List (Nat × StreamEntry) :=
  (sid, e) :: t.filter (fun kv => kv.1 ≠ sid)

/-- Observable effect of the actor handling one inbound `Rel` frame:
the connection table afterwards, the frames given to
`session.send_bytes` (in order), the streams handed to
`conn_accept_send`, and the frames forwarded via `handle.process`. -/
structure MuxStep where
  table : List (Nat × StreamEntry)
  sent : List RelFrame
  accepted : List StreamEntry
  forwarded : List RelFrame
  deriving DecidableEq

/-- Embeds the inbound `Message::Rel` handling of `multiplex`
(multiplex_actor.rs lines 38-96): a `Syn` for a known stream re-sends a
SYN-ACK; a `Syn` for an unknown stream creates a `SynReceived` stream,
stores it and accepts it; any other kind is forwarded when the stream is
known, answered with a `Rst` when unknown (unless it is itself a `Rst`,
which is silently discarded). -/
def handleRel (table : List (Nat × StreamEntry)) (f : RelFrame) : MuxStep :=
  if f.kind = RelKind.Syn then
    match getStream table f.stream_id with
    | some _ =>
        { table := table
          sent := [{ kind := RelKind.SynAck, stream_id := f.stream_id,
                     seqno := 0, payload := [] }]
          accepted := []
          forwarded := [] }
    | none =>
        let info := if f.payload = [] then none else some f.payload
        let entry : StreamEntry :=
          { state := RelConnState.SynReceived f.stream_id, additional_info := info }
        { table := setStream table f.stream_id entry
          sent := []
          accepted := [entry]
          forwarded := [] }
  else
    match getStream table f.stream_id with
    | some _ => { table := table, sent := [], accepted := [], forwarded := [f] }
    | none =>
        if f.kind ≠ RelKind.Rst then
          { table := table
            sent := [{ kind := RelKind.Rst, stream_id := f.stream_id,
                       seqno := 0, payload := [] }]
            accepted := []
            forwarded := [] }
        else { table := table, sent := [], accepted := [], forwarded := [] }

/-- Handles a sequence of inbound `Rel` frames, concatenating the
observable outputs in order. -/
def handleRelSeq : List (Nat × StreamEntry) → List RelFrame → MuxStep
  | t, [] => { table := t, sent := [], accepted := [], forwarded := [] }
  | t, f :: fs =>
      let s := handleRel t f
      let rest := handleRelSeq s.table fs
      { table := rest.table
        sent := s.sent ++ rest.sent
        accepted := s.accepted ++ rest.accepted
        forwarded := s.forwarded ++ rest.forwarded }

/-! ## Theorems -/

/-- C2: the source `post_decode` returns `None` on slots shorter than two
bytes, but on a slot whose encoded length `ℓ` satisfies `ℓ + 2 > slot.len()`
it does not return `None`: `raw.slice(2..2 + ℓ)` panics.  Concretely, the
two-byte slot `[0x03, 0x00]` (ℓ = 3) panics. -/
theorem postDecode_out_of_range_panics :
    postDecode [3, 0] = Except.error () := rfl

/-- C6: for every abstract CDF-search result and every run length
`1 ≤ k ≤ 255`, the parity count computed by `repair_len` is at most
`min (255 - k) k`. -/
theorem repair_len_le_cap (rawSearch k : Nat) (h1 : 1 ≤ k) (h2 : k ≤ 255) :
    repair_len rawSearch k ≤ min (255 - k) k := by
  unfold repair_len
  omega

theorem repair_len_le_cap_witness :
    1 ≤ 10 ∧ 10 ≤ 255 ∧ repair_len 3 10 ≤ min (255 - 10) 10 :=
  ⟨by decide, by decide, repair_len_le_cap 3 10 (by decide) (by decide)⟩

/-- C10: for every decoder state, `good_pkts` is at most `data_shards`,
`lost_pkts` is the difference `data_shards - good_pkts` (which therefore
never underflows), and a `done` decoder reports `good_pkts = data_shards`
and `lost_pkts = 0`. -/
theorem good_lost_pkts_invariant (d : FrameDecoder) :
    d.good_pkts ≤ d.data_shards ∧
    d.lost_pkts = d.data_shards - d.good_pkts ∧
    (d.done = true → d.good_pkts = d.data_shards ∧ d.lost_pkts = 0) := by
  have hdone : d.done = true → d.good_pkts = d.data_shards := by
    intro h
    unfold FrameDecoder.good_pkts
    rw [if_pos h]
  refine ⟨?_, rfl, fun h => ⟨hdone h, ?_⟩⟩
  · unfold FrameDecoder.good_pkts
    split
    · exact le_refl _
    · exact Nat.min_le_right _ _
  · unfold FrameDecoder.lost_pkts
    rw [hdone h]
    omega

theorem good_lost_pkts_invariant_witness :
    decoderDoneEx.good_pkts = 3 ∧ decoderDoneEx.lost_pkts = 0 :=
  (good_lost_pkts_invariant decoderDoneEx).2.2 rfl

/-- C5: for every packet within the asserted domain
(`p.length ≤ 65535`, `p.length + 2 ≤ L`), `pre_encode` produces the shard
`le16 (p.length) ++ p ++ zero padding` of total length `L`, and
`post_decode` recovers exactly `p` from it. -/
theorem pre_encode_roundtrip (p : List Nat) (L : Nat)
    (h1 : p.length ≤ 65535) (h2 : p.length + 2 ≤ L) :
    pre_encode p L = le16 p.length ++ p ++ List.replicate (L - p.length - 2) 0 ∧
    postDecode (pre_encode p L) = Except.ok (some p) := by
  refine ⟨rfl, ?_⟩
  show postDecode (le16 p.length ++ p ++ List.replicate (L - p.length - 2) 0) =
    Except.ok (some p)
  unfold le16 postDecode
  simp only [List.cons_append, List.nil_append]
  have hb : p.length % 256 + 256 * (p.length % 65536 / 256) = p.length := by
    rw [Nat.mod_eq_of_lt (show p.length < 65536 by omega)]
    omega
  rw [hb]
  rw [if_pos (by simp only [List.length_append, List.length_replicate]; omega)]
  rw [List.take_left]

theorem pre_encode_roundtrip_witness :
    pre_encode [170, 187, 204] 8 = [3, 0, 170, 187, 204, 0, 0, 0] ∧
    postDecode (pre_encode [170, 187, 204] 8) = Except.ok (some [170, 187, 204]) :=
  ⟨by decide, (pre_encode_roundtrip [170, 187, 204] 8 (by decide) (by decide)).2⟩

theorem le_foldl_max (l : List Nat) (a : Nat) : a ≤ l.foldl max a := by
  induction l generalizing a with
  | nil => exact le_refl a
  | cons x xs ih => exact le_trans (Nat.le_max_left a x) (ih (max a x))

theorem mem_le_foldl_max (l : List Nat) (a x : Nat) (hx : x ∈ l) :
    x ≤ l.foldl max a := by
  induction l generalizing a with
  | nil => cases hx
  | cons y ys ih =>
      rcases List.mem_cons.mp hx with h | h
      · subst h
        exact le_trans (Nat.le_max_right a x) (le_foldl_max ys _)
      · exact ih _ h

theorem pre_encode_length (p : List Nat) (L : Nat) (h : p.length + 2 ≤ L) :
    (pre_encode p L).length = L := by
  unfold pre_encode le16
  simp only [List.length_append, List.length_replicate, List.length_cons,
    List.length_nil]
  omega

/-- C4 counterexample: at 256 one-byte packets and a positive search
value the encoder does not return `k + m` shards — it panics in both
build modes (debug: `255 - run_len` underflow in `repair_len`; release:
the wrapped cap gives `parity_shards ≥ 1` and `ReedSolomon::new(256, m)`
fails its `.expect`), so the claim is false without a bound on
`pkts.len()`. -/
theorem encode_shape_cex :
    FrameEncoder.encode_checked (fun _ _ s => s) 1 (List.replicate 256 [0]) =
      Except.error () := by
  unfold FrameEncoder.encode_checked
  rw [if_pos ⟨by rw [List.length_replicate]; decide, by decide⟩]

/-- C4 (amended): for every nonempty packet list with at most 255
packets, each within the asserted 65535-byte bound, and every
reed-solomon parity-fill satisfying the library's contract (it preserves
the number of shards, each shard's length, and the data-shard prefix —
systematic code mutated in place), `encode` does not panic and returns
`k + m` shards with `m = repair_len`, all of length
`max packet length + 2`, whose first `k` entries are exactly the padded
input packets in order; above 255 packets the encoder panics
(see `encode_shape_cex`). -/
theorem encode_shape (rsParity : Nat → Nat → List (List Nat) → List (List Nat))
    (rawSearch : Nat) (pkts : List (List Nat))
    (hne : pkts ≠ [])
    (hk : pkts.length ≤ 255)
    (hbound : ∀ p ∈ pkts, p.length ≤ 65535)
    (hshape : ∀ k m s, (rsParity k m s).map List.length = s.map List.length)
    (hsys : ∀ k m s, (rsParity k m s).take k = s.take k) :
    FrameEncoder.encode_checked rsParity rawSearch pkts =
      Except.ok (FrameEncoder.encode rsParity rawSearch pkts) ∧
    (FrameEncoder.encode rsParity rawSearch pkts).length =
      pkts.length + repair_len rawSearch pkts.length ∧
    (∀ s ∈ FrameEncoder.encode rsParity rawSearch pkts,
      s.length = (pkts.map List.length).foldl max 0 + 2) ∧
    (FrameEncoder.encode rsParity rawSearch pkts).take pkts.length =
      pkts.map (fun p => pre_encode p ((pkts.map List.length).foldl max 0 + 2)) := by
  have hnp : FrameEncoder.encode_checked rsParity rawSearch pkts =
      Except.ok (FrameEncoder.encode rsParity rawSearch pkts) := by
    unfold FrameEncoder.encode_checked
    rw [if_neg (fun hc => absurd hc.1 (not_lt.mpr hk))]
  refine ⟨hnp, ?_⟩
  have hb := hbound
  clear hbound
  set L := (pkts.map List.length).foldl max 0 + 2 with hL
  set k := pkts.length with hk
  set m := repair_len rawSearch pkts.length with hm
  set padded := pkts.map (fun p => pre_encode p L) with hpadded
  set shards := padded ++ List.replicate m (List.replicate L 0) with hshards
  have hplen : ∀ p ∈ pkts, (pre_encode p L).length = L := by
    intro p hp
    apply pre_encode_length
    have := mem_le_foldl_max (pkts.map List.length) 0 p.length
      (List.mem_map_of_mem List.length hp)
    omega
  have hshards_len : shards.length = k + m := by
    rw [hshards, List.length_append, List.length_replicate, hpadded,
      List.length_map]
  have hshards_all : ∀ s ∈ shards, s.length = L := by
    intro s hs
    rcases List.mem_append.mp hs with h | h
    · rcases List.mem_map.mp h with ⟨p, hp, rfl⟩
      exact hplen p hp
    · rw [List.eq_of_mem_replicate h, List.length_replicate]
  have htake : shards.take k = padded := by
    rw [hshards, hpadded]
    have : (pkts.map (fun p => pre_encode p L)).length = k := List.length_map _ _
    rw [← this, List.take_left]
  have hresult : FrameEncoder.encode rsParity rawSearch pkts =
      if 0 < m then rsParity k m shards else shards := rfl
  rw [hresult]
  by_cases hm0 : 0 < m
  · rw [if_pos hm0]
    have hmapeq := hshape k m shards
    refine ⟨?_, ?_, ?_⟩
    · have : ((rsParity k m shards).map List.length).length =
          (shards.map List.length).length := by rw [hmapeq]
      simpa [List.length_map, hshards_len] using this
    · intro s hs
      have : s.length ∈ (rsParity k m shards).map List.length :=
        List.mem_map_of_mem List.length hs
      rw [hmapeq] at this
      rcases List.mem_map.mp this with ⟨t, ht, hteq⟩
      rw [← hteq, hshards_all t ht]
    · rw [hsys k m shards, htake]
  · rw [if_neg hm0]
    exact ⟨hshards_len, hshards_all, htake⟩

theorem encode_shape_witness :
    (FrameEncoder.encode (fun _ _ s => s) 1 [[170, 187, 204]]).length = 2 ∧
    (FrameEncoder.encode (fun _ _ s => s) 1 [[170, 187, 204]]).take 1 =
      [[3, 0, 170, 187, 204]] := by
  have h := encode_shape (fun _ _ s => s) 1 [[170, 187, 204]] (by decide)
    (by decide) (by decide) (fun _ _ _ => rfl) (fun _ _ _ => rfl)
  exact ⟨h.2.1.trans (by decide), h.2.2.2.trans (by decide)⟩

theorem handleRel_syn_known (table : List (Nat × StreamEntry)) (f : RelFrame)
    (e : StreamEntry) (hk : f.kind = RelKind.Syn)
    (hin : getStream table f.stream_id = some e) :
    handleRel table f =
      { table := table
        sent := [{ kind := RelKind.SynAck, stream_id := f.stream_id,
                   seqno := 0, payload := [] }]
        accepted := []
        forwarded := [] } := by
  unfold handleRel
  rw [if_pos hk, hin]

theorem handleRel_syn_unknown (table : List (Nat × StreamEntry)) (f : RelFrame)
    (hk : f.kind = RelKind.Syn)
    (habs : getStream table f.stream_id = none) :
    handleRel table f =
      { table := setStream table f.stream_id
          { state := RelConnState.SynReceived f.stream_id
            additional_info := if f.payload = [] then none else some f.payload }
        sent := []
        accepted := [{ state := RelConnState.SynReceived f.stream_id
                       additional_info := if f.payload = [] then none else some f.payload }]
        forwarded := [] } := by
  unfold handleRel
  rw [if_pos hk, habs]

theorem getStream_setStream (t : List (Nat × StreamEntry)) (sid : Nat)
    (e : StreamEntry) : getStream (setStream t sid e) sid = some e := by
  unfold getStream setStream
  simp [List.lookup]

theorem handleRelSeq_known_syn (table : List (Nat × StreamEntry)) (sid : Nat)
    (e : StreamEntry) (fs : List RelFrame)
    (hin : getStream table sid = some e)
    (hfs : ∀ g ∈ fs, g.kind = RelKind.Syn ∧ g.stream_id = sid) :
    handleRelSeq table fs =
      { table := table
        sent := List.replicate fs.length
          { kind := RelKind.SynAck, stream_id := sid, seqno := 0, payload := [] }
        accepted := []
        forwarded := [] } := by
  induction fs with
  | nil => rfl
  | cons g gs ih =>
      obtain ⟨hg1, hg2⟩ := hfs g (List.mem_cons_self g gs)
      have hstep : handleRel table g =
          { table := table
            sent := [{ kind := RelKind.SynAck, stream_id := sid,
                       seqno := 0, payload := [] }]
            accepted := []
            forwarded := [] } := by
        rw [handleRel_syn_known table g e hg1 (hg2 ▸ hin), hg2]
      show (let s := handleRel table g
            let rest := handleRelSeq s.table gs
            ({ table := rest.table
               sent := s.sent ++ rest.sent
               accepted := s.accepted ++ rest.accepted
               forwarded := s.forwarded ++ rest.forwarded } : MuxStep)) = _
      rw [hstep]
      simp only []
      rw [ih (fun g hg => hfs g (List.mem_cons_of_mem _ hg))]
      simp [List.replicate_succ]

/-- C7: a `Syn` for a stream id already in the connection table makes the
actor send exactly one SYN-ACK (same stream id, seqno 0, empty payload),
create no stream and leave the table unchanged; a `Syn` for an absent
stream id stores and accepts exactly one new `SynReceived` stream and
sends nothing; hence a nonempty run of SYNs with the same stream id from
an absent-id table yields exactly one accepted `SynReceived` stream and
one SYN-ACK per duplicate. -/
theorem syn_idempotence (table : List (Nat × StreamEntry)) (f : RelFrame)
    (sid : Nat) (fs : List RelFrame) (hk : f.kind = RelKind.Syn) :
    (∀ e, getStream table f.stream_id = some e →
      handleRel table f =
        { table := table
          sent := [{ kind := RelKind.SynAck, stream_id := f.stream_id,
                     seqno := 0, payload := [] }]
          accepted := []
          forwarded := [] }) ∧
    (getStream table f.stream_id = none →
      handleRel table f =
        { table := setStream table f.stream_id
            { state := RelConnState.SynReceived f.stream_id
              additional_info := if f.payload = [] then none else some f.payload }
          sent := []
          accepted := [{ state := RelConnState.SynReceived f.stream_id
                         additional_info := if f.payload = [] then none else some f.payload }]
          forwarded := [] }) ∧
    (getStream table sid = none → fs ≠ [] →
      (∀ g ∈ fs, g.kind = RelKind.Syn ∧ g.stream_id = sid) →
      (handleRelSeq table fs).accepted.length = 1 ∧
      (∀ e ∈ (handleRelSeq table fs).accepted,
        e.state = RelConnState.SynReceived sid) ∧
      (handleRelSeq table fs).sent =
        List.replicate (fs.length - 1)
          { kind := RelKind.SynAck, stream_id := sid, seqno := 0, payload := [] }) := by
  refine ⟨fun e he => handleRel_syn_known table f e hk he,
    fun habs => handleRel_syn_unknown table f hk habs, ?_⟩
  intro habs hne hfs
  match fs, hne with
  | g :: gs, _ =>
    obtain ⟨hg1, hg2⟩ := hfs g (List.mem_cons_self g gs)
    have hstep := handleRel_syn_unknown table g hg1 (hg2 ▸ habs)
    have hrest := handleRelSeq_known_syn
      (setStream table g.stream_id
        { state := RelConnState.SynReceived g.stream_id
          additional_info := if g.payload = [] then none else some g.payload })
      sid
      { state := RelConnState.SynReceived g.stream_id
        additional_info := if g.payload = [] then none else some g.payload }
      gs (hg2 ▸ getStream_setStream table g.stream_id _)
      (fun g hg => hfs g (List.mem_cons_of_mem _ hg))
    have hseq : handleRelSeq table (g :: gs) =
        { table := (handleRelSeq (handleRel table g).table gs).table
          sent := (handleRel table g).sent ++
            (handleRelSeq (handleRel table g).table gs).sent
          accepted := (handleRel table g).accepted ++
            (handleRelSeq (handleRel table g).table gs).accepted
          forwarded := (handleRel table g).forwarded ++
            (handleRelSeq (handleRel table g).table gs).forwarded } := rfl
    rw [hseq, hstep]
    dsimp only
    rw [hrest]
    refine ⟨by simp, ?_, by simp⟩
    intro e he
    simp only [List.append_nil, List.mem_singleton] at he
    rw [he, hg2]

theorem syn_idempotence_witness :
    (handleRelSeq []
      [{ kind := RelKind.Syn, stream_id := 42, seqno := 0, payload := [101] },
       { kind := RelKind.Syn, stream_id := 42, seqno := 0, payload := [101] }]).accepted.length = 1 ∧
    (∀ e ∈ (handleRelSeq []
      [{ kind := RelKind.Syn, stream_id := 42, seqno := 0, payload := [101] },
       { kind := RelKind.Syn, stream_id := 42, seqno := 0, payload := [101] }]).accepted,
      e.state = RelConnState.SynReceived 42) ∧
    (handleRelSeq []
      [{ kind := RelKind.Syn, stream_id := 42, seqno := 0, payload := [101] },
       { kind := RelKind.Syn, stream_id := 42, seqno := 0, payload := [101] }]).sent =
      List.replicate 1
        { kind := RelKind.SynAck, stream_id := 42, seqno := 0, payload := [] } :=
  (syn_idempotence []
    { kind := RelKind.Syn, stream_id := 42, seqno := 0, payload := [101] } 42
    [{ kind := RelKind.Syn, stream_id := 42, seqno := 0, payload := [101] },
     { kind := RelKind.Syn, stream_id := 42, seqno := 0, payload := [101] }]
    rfl).2.2 rfl (by decide) (by decide)

/-- C8: an inbound non-`Syn` frame whose stream id is absent from the
connection table makes the actor send exactly one
`Rst { stream_id, seqno := 0, payload := [] }` when the frame's kind is
not `Rst`, and nothing when it is `Rst`; the table is unchanged and
nothing is accepted or forwarded in either case. -/
theorem unknown_stream_rst (table : List (Nat × StreamEntry)) (f : RelFrame)
    (hk : f.kind ≠ RelKind.Syn) (habs : getStream table f.stream_id = none) :
    (f.kind ≠ RelKind.Rst →
      handleRel table f =
        { table := table
          sent := [{ kind := RelKind.Rst, stream_id := f.stream_id,
                     seqno := 0, payload := [] }]
          accepted := []
          forwarded := [] }) ∧
    (f.kind = RelKind.Rst →
      handleRel table f =
        { table := table, sent := [], accepted := [], forwarded := [] }) := by
  unfold handleRel
  rw [if_neg hk, habs]
  constructor
  · intro h
    rw [if_pos h]
  · intro h
    rw [if_neg (by simp [h])]

theorem unknown_stream_rst_witness :
    handleRel [] { kind := RelKind.Data, stream_id := 7, seqno := 1, payload := [9] } =
      { table := []
        sent := [{ kind := RelKind.Rst, stream_id := 7, seqno := 0, payload := [] }]
        accepted := []
        forwarded := [] } :=
  (unknown_stream_rst []
    { kind := RelKind.Data, stream_id := 7, seqno := 1, payload := [9] }
    (by decide) rfl).1 (by decide)

theorem decode_of_done (rsRec : List (List Nat) → List Bool → Option (List (List Nat)))
    (d : FrameDecoder) (pkt : List Nat) (idx : Nat)
    (hm : d.parity_shards ≠ 0) (hd : d.done = true) :
    d.decode rsRec pkt idx =
      Except.ok ({ d with space :=
        if d.space.isEmpty then List.replicate (d.data_shards + d.parity_shards) (List.replicate pkt.length 0) else d.space }, none) := by
  unfold FrameDecoder.decode
  rw [if_neg hm]
  dsimp only
  split
  · split
    · rfl
    · rw [if_pos (Or.inl hd)]
  · split
    · rfl
    · rw [if_pos (Or.inl hd)]

theorem decode_some_high_done
    (rsRec : List (List Nat) → List Bool → Option (List (List Nat)))
    (d : FrameDecoder) (pkt : List Nat) (idx : Nat)
    (hm : d.parity_shards ≠ 0) (hidx : d.data_shards ≤ idx)
    (d1 : FrameDecoder) (res : List (List Nat))
    (h : d.decode rsRec pkt idx = Except.ok (d1, some res)) :
    d1.done = true ∧ d1.parity_shards = d.parity_shards := by
  unfold FrameDecoder.decode at h
  rw [if_neg hm] at h
  dsimp only at h
  set sp := (if d.space.isEmpty = true then
      List.replicate (d.data_shards + d.parity_shards) (List.replicate pkt.length 0)
    else d.space) with hsp
  set pc := (if d.present.getD idx false = true then d.present_count
    else d.present_count + 1) with hpc
  rw [if_neg (Nat.not_lt.mpr hidx)] at h
  split at h
  · simp at h
  · split at h
    · simp at h
    · split at h
      · simp at h
      · split at h
        · simp at h
        · split at h
          · simp at h
          · split at h
            · simp at h
            · simp only [Except.ok.injEq, Prod.mk.injEq] at h
              rw [← h.1]
              exact ⟨rfl, rfl⟩

theorem decodeSeq_done_none
    (rsRec : List (List Nat) → List Bool → Option (List (List Nat)))
    (rest : List (List Nat × Nat)) (d : FrameDecoder)
    (hm : d.parity_shards ≠ 0) (hd : d.done = true)
    (dF : FrameDecoder) (outs : List (Option (List (List Nat))))
    (h : decodeSeq rsRec d rest = Except.ok (dF, outs)) :
    ∀ o ∈ outs, o = none := by
  induction rest generalizing d dF outs with
  | nil =>
      unfold decodeSeq at h
      simp only [Except.ok.injEq, Prod.mk.injEq] at h
      rw [← h.2]
      intro o ho
      cases ho
  | cons pr rest ih =>
      obtain ⟨pkt, idx⟩ := pr
      unfold decodeSeq at h
      rw [decode_of_done rsRec d pkt idx hm hd] at h
      dsimp only at h
      split at h
      · cases h
      · rename_i dF2 outs2 heq
        simp only [Except.ok.injEq, Prod.mk.injEq] at h
        intro o ho
        rw [← h.2] at ho
        rcases List.mem_cons.mp ho with h0 | h0
        · exact h0
        · exact ih { d with space := if d.space.isEmpty = true then List.replicate (d.data_shards + d.parity_shards) (List.replicate pkt.length 0) else d.space }
            hm hd dF2 outs2 heq o h0

/-- C1 counterexample: a `FrameDecoder::new(2, 1)` returns `Some` from two
consecutive `decode` calls (both data shards are delivered immediately,
neither ends the session), so it is false that once any call returns
`Some(_)` every subsequent call returns `None`. -/
theorem decoder_single_use_cex :
    (match decodeSeq rsNone (FrameDecoder.new 2 1)
        [([1, 0, 5, 0], 0), ([1, 0, 7, 0], 1)] with
      | Except.ok (_, outs) => outs.map Option.isSome
      | Except.error _ => []) = [true, true] := rfl

/-- C1 (amended): for a decoder with `parity_shards > 0`, once `decode`
returns `Some` from the reconstruction path (a shard at index
`≥ data_shards`, which sets `done`), every subsequent `decode` call
returns `None`; `Some` returns for data shards at index `< data_shards`
do not end the session, and `parity_shards = 0` decoders may return
`Some` repeatedly. -/
theorem decoder_single_use_after_reconstruction
    (rsRec : List (List Nat) → List Bool → Option (List (List Nat)))
    (d : FrameDecoder) (pkt : List Nat) (idx : Nat)
    (d1 : FrameDecoder) (res : List (List Nat))
    (rest : List (List Nat × Nat)) (dF : FrameDecoder)
    (outs : List (Option (List (List Nat))))
    (hm : 0 < d.parity_shards) (hidx : d.data_shards ≤ idx)
    (h1 : d.decode rsRec pkt idx = Except.ok (d1, some res))
    (h2 : decodeSeq rsRec d1 rest = Except.ok (dF, outs)) :
    outs.all Option.isNone = true := by
  have hm1 : d.parity_shards ≠ 0 := Nat.pos_iff_ne_zero.mp hm
  have hp := decode_some_high_done rsRec d pkt idx hm1 hidx d1 res h1
  have hm2 : d1.parity_shards ≠ 0 := by rw [hp.2]; exact hm1
  have hall := decodeSeq_done_none rsRec rest d1 hm2 hp.1 dF outs h2
  exact List.all_eq_true.mpr (fun o ho => by rw [hall o ho]; rfl)

theorem decoder_single_use_after_reconstruction_witness :
    ([none] : List (Option (List (List Nat)))).all Option.isNone = true :=
  decoder_single_use_after_reconstruction rsW (FrameDecoder.new 1 1) [9, 9] 1
    dRecon [[]] [([9, 9], 0)] dFin [none]
    (by decide) (by decide) (by rfl) (by rfl)

/-- C3 counterexample: with `parity_shards = 0` a shard index far beyond
`k + m` still returns `Some` (and sets `done`), and with
`parity_shards = 1` a fresh decoder given an out-of-range index returns
`None` but allocates its shard buffer — the state is not left entirely
unchanged. -/
theorem decode_admission_cex :
    (match (FrameDecoder.new 1 0).decode rsNone [0, 0] 5 with
      | Except.ok (_, out) => out.isSome
      | Except.error _ => false) = true ∧
    (match (FrameDecoder.new 1 1).decode rsNone [0, 0] 2 with
      | Except.ok (d1, _) => d1.space
      | Except.error _ => []) = [[0, 0], [0, 0]] :=
  ⟨rfl, rfl⟩

/-- C3 (amended): for a decoder with `parity_shards > 0`, a `decode` call
with shard index `≥ data_shards + parity_shards` (given the reachable-state
invariant that `space` is empty or holds `data_shards + parity_shards`
slots), or on an already-`done` decoder, or with a packet whose length
differs from the allocated slot length, returns `None` and leaves
`present`, `present_count` and `done` unchanged; the only state change is
that an empty `space` is lazily allocated. -/
theorem decode_admission_amended
    (rsRec : List (List Nat) → List Bool → Option (List (List Nat)))
    (d : FrameDecoder) (pkt : List Nat) (idx : Nat)
    (hm : 0 < d.parity_shards)
    (hcase : (d.data_shards + d.parity_shards ≤ idx ∧
        (d.space = [] ∨ d.space.length = d.data_shards + d.parity_shards)) ∨
      d.done = true ∨
      (idx < d.space.length ∧ (d.space.getD idx []).length ≠ pkt.length)) :
    d.decode rsRec pkt idx =
      Except.ok ({ d with space := if d.space.isEmpty then List.replicate (d.data_shards + d.parity_shards) (List.replicate pkt.length 0) else d.space }, none) := by
  have hm1 : d.parity_shards ≠ 0 := Nat.pos_iff_ne_zero.mp hm
  rcases hcase with ⟨hidx, hsp⟩ | hd | ⟨hlt, hne⟩
  · unfold FrameDecoder.decode
    rw [if_neg hm1]
    dsimp only
    split
    · split
      · rfl
      · rename_i hcon
        exact absurd (by rw [List.length_replicate]; exact hidx) hcon
    · rename_i he
      have hl : d.space.length = d.data_shards + d.parity_shards := by
        rcases hsp with h | h
        · exact absurd (by rw [h]; rfl) he
        · exact h
      split
      · rfl
      · rename_i hcon
        exact absurd (by rw [hl]; exact hidx) hcon
  · exact decode_of_done rsRec d pkt idx hm1 hd
  · have hnemp : d.space.isEmpty = false := by
      cases hsp : d.space with
      | nil => rw [hsp] at hlt; simp at hlt
      | cons a l => rfl
    unfold FrameDecoder.decode
    rw [if_neg hm1]
    dsimp only
    rw [if_neg (by simp [hnemp] : ¬d.space.isEmpty = true)]
    rw [if_neg (not_le.mpr hlt)]
    rw [if_pos (Or.inr (Or.inr (Or.inr hne)))]

theorem decode_admission_amended_witness :
    (FrameDecoder.new 1 1).decode rsNone [0, 0] 2 =
      Except.ok ({ FrameDecoder.new 1 1 with space := [[0, 0], [0, 0]] }, none) :=
  decode_admission_amended rsNone (FrameDecoder.new 1 1) [0, 0] 2 (by decide)
    (Or.inl ⟨by decide, Or.inl rfl⟩)
